import Mathlib

set_option maxRecDepth 4000

/-
Verification development for the swing-trading backtest core
(exploration/explore_swingtradetitanium.py).

Prices, dates and all monetary quantities are embedded as rationals.
The source computes with Python floats; none of the properties below
depend on rounding, so the arithmetic is modelled exactly.

The randomized RANSAC trendline fitter calls into an external library
(sklearn.RANSACRegressor) with an unseeded random source; the embedding
is therefore parametric in a fitter oracle
fit : List (rat x rat) -> rat x rat returning (slope, intercept) of the
final estimator.  Universal theorems quantify over the oracle; concrete
witnesses instantiate it with the deterministic ordinary-least-squares
fit olsFit, which coincides with the RANSAC output whenever the
consensus set is the whole point set (in particular for two-point fits,
where min_samples = max 2 (int (0.3 * n)) = n = 2 makes RANSAC
deterministic).
-/

namespace SwingTrade

/-- List access with default 0, the way the simulator reads a price or
date series at an index (all indices used by the code are in range). -/
def pget (l : List ℚ) (j : ℕ) : ℚ := l.getD j 0

/-! ## Model of scipy.signal.find_peaks (distance and prominence filters)

The source calls find_peaks(values, distance=order, prominence=prominence)
on the window and on its negation.  The model below follows the scipy
implementation: _local_maxima_1d (strict local maxima with plateau
midpoints), then _select_by_peak_distance (highest peak first, greedily
discarding neighbours closer than distance), then _peak_prominences with
the keep condition prominence <= computed prominence.  Ties between equal
peak heights are ordered by a stable ascending argsort. -/

/-- First index j at or after i with j = iMax or x j different from v:
the scan for the right edge of a plateau in _local_maxima_1d. -/
def plateauEnd (x : List ℚ) (v : ℚ) (iMax : ℕ) : ℕ → ℕ → ℕ
  | i, 0 => i
  | i, fuel + 1 =>
    if i < iMax ∧ pget x i = v then plateauEnd x v iMax (i + 1) fuel else i

/-- Main scan of _local_maxima_1d over indices 1 .. iMax - 1, with fuel. -/
def localMaximaAux (x : List ℚ) (iMax : ℕ) : ℕ → ℕ → List ℕ
  | _, 0 => []
  | i, fuel + 1 =>
    if i < iMax then
      if pget x (i - 1) < pget x i then
        let iAhead := plateauEnd x (pget x i) iMax (i + 1) iMax
        if pget x iAhead < pget x i then
          (i + (iAhead - 1)) / 2 :: localMaximaAux x iMax (iAhead + 1) fuel
        else localMaximaAux x iMax (i + 1) fuel
      else localMaximaAux x iMax (i + 1) fuel
    else []

/-- All interior local maxima of x (plateau midpoints), ascending:
scipy _local_maxima_1d. -/
def localMaxima (x : List ℚ) : List ℕ :=
  localMaximaAux x (x.length - 1) 1 x.length

/-- Walk left from index i while values stay at or below xp, tracking the
minimum: the left base scan of _peak_prominences (wlen unset). -/
def leftMinAux (x : List ℚ) (xp : ℚ) : ℕ → ℚ → ℚ
  | 0, m => if pget x 0 ≤ xp then min m (pget x 0) else m
  | i + 1, m =>
    if pget x (i + 1) ≤ xp then leftMinAux x xp i (min m (pget x (i + 1)))
    else m

/-- Walk right from index i up to iMax while values stay at or below xp,
tracking the minimum: the right base scan of _peak_prominences. -/
def rightMinAux (x : List ℚ) (xp : ℚ) (iMax : ℕ) : ℕ → ℚ → ℕ → ℚ
  | _, m, 0 => m
  | i, m, fuel + 1 =>
    if i ≤ iMax ∧ pget x i ≤ xp then
      rightMinAux x xp iMax (i + 1) (min m (pget x i)) fuel
    else m

/-- Prominence of the peak at index p in x, as in scipy _peak_prominences
with no wlen restriction. -/
def promOfPeak (x : List ℚ) (p : ℕ) : ℚ :=
  let xp := pget x p
  xp - max (leftMinAux x xp p xp) (rightMinAux x xp (x.length - 1) p xp x.length)

/-- Stable insertion into a list of (priority, index) pairs, ascending by
priority and breaking ties by index. -/
def insertPair (a : ℚ × ℕ) : List (ℚ × ℕ) → List (ℚ × ℕ)
  | [] => [a]
  | b :: l =>
    if a.1 < b.1 ∨ (a.1 = b.1 ∧ a.2 ≤ b.2) then a :: b :: l
    else b :: insertPair a l

/-- Stable ascending sort of (priority, index) pairs. -/
def sortPairs : List (ℚ × ℕ) → List (ℚ × ℕ)
  | [] => []
  | a :: l => insertPair a (sortPairs l)

/-- Discard flags for positions k = j-1, j-2, ... while the peak at k is
closer than d to the peak at j: left while loop of
_select_by_peak_distance. -/
def killLeft (peaks : List ℕ) (pj d : ℤ) : ℕ → List Bool → List Bool
  | 0, keep => keep
  | k + 1, keep =>
    if pj - (peaks.getD k 0 : ℤ) < d then killLeft peaks pj d k (keep.set k false)
    else keep

/-- Discard flags for positions k = j+1, j+2, ... while the peak at k is
closer than d to the peak at j: right while loop of
_select_by_peak_distance. -/
def killRight (peaks : List ℕ) (pj d : ℤ) (len : ℕ) : ℕ → List Bool → ℕ → List Bool
  | _, keep, 0 => keep
  | k, keep, fuel + 1 =>
    if k < len ∧ (peaks.getD k 0 : ℤ) - pj < d then
      killRight peaks pj d len (k + 1) (keep.set k false) fuel
    else keep

/-- Keep flags of _select_by_peak_distance: process peaks from highest
priority down, each surviving peak discarding its neighbours within
distance d. -/
def selectByPeakDistance (peaks : List ℕ) (priority : List ℚ) (d : ℕ) : List Bool :=
  let hf := (sortPairs ((List.range peaks.length).map fun i => (priority.getD i 0, i))).map Prod.snd
  hf.reverse.foldl
    (fun keep j =>
      if keep.getD j false then
        killRight peaks (peaks.getD j 0 : ℤ) (d : ℤ) peaks.length (j + 1)
          (killLeft peaks (peaks.getD j 0 : ℤ) (d : ℤ) j keep) peaks.length
      else keep)
    (List.replicate peaks.length true)

/-- Filter a list by a parallel list of keep flags. -/
def filterKeep {α : Type} (l : List α) (keep : List Bool) : List α :=
  (l.zip keep).filterMap fun q => if q.2 then some q.1 else none

/-- scipy.signal.find_peaks x with the distance and prominence filters,
as called by the source (height, threshold, width unset). -/
def find_peaks (x : List ℚ) (distance : ℕ) (prominence : ℚ) : List ℕ :=
  let peaks0 := localMaxima x
  let peaks1 := filterKeep peaks0 (selectByPeakDistance peaks0 (peaks0.map (pget x)) distance)
  filterKeep peaks1 (peaks1.map fun q => decide (prominence ≤ promOfPeak x q))

/-- detect_local_extrema: troughs from the negated series, peaks from the
series, both via find_peaks with the same order and prominence. -/
def detect_local_extrema (series : List ℚ) (order : ℕ) (prominence : ℚ) :
    List ℕ × List ℕ :=
  let peaks := find_peaks series order prominence
  let troughs := find_peaks (series.map fun q => -q) order prominence
  (troughs, peaks)

/-! ## Trendline fitting and signal logic -/

/-- The trend info dictionary: fitted model (slope, intercept) or none,
the slope entry, the intercept entry (none encodes the nan placeholder)
and the extrema indices used. -/
structure TrendInfo where
  model : Option (ℚ × ℚ)
  slope : ℚ
  intercept : Option ℚ
  used_points : List ℕ
deriving DecidableEq, Repr

/-- The all-none trend info dictionary the simulator starts from and
resets to while no trend has ever been established. -/
def emptyInfo : TrendInfo :=
  { model := none, slope := 0, intercept := none, used_points := [] }

/-- Deterministic ordinary least squares fit of (x, y) points, returning
(slope, intercept): the concrete fitter oracle used by witnesses.  When
the denominator degenerates (fewer than two distinct x values) the slope
is 0, a case never produced by the call sites exercised below. -/
def olsFit (pts : List (ℚ × ℚ)) : ℚ × ℚ :=
  let n : ℚ := pts.length
  let sx := (pts.map Prod.fst).sum
  let sy := (pts.map Prod.snd).sum
  let sxx := (pts.map fun q => q.1 * q.1).sum
  let sxy := (pts.map fun q => q.1 * q.2).sum
  let den := n * sxx - sx * sx
  if den = 0 then (0, if n = 0 then 0 else sy / n)
  else
    let m := (n * sxy - sx * sy) / den
    (m, (sy - m * sx) / n)

/-- trendline_from_extrema: with fewer than 2 extrema return the no-model
dictionary (slope 0, intercept the first extremum price when one exists),
otherwise fit through the (date, price) pairs at the extrema indices via
the fitter oracle. -/
def trendline_from_extrema (fit : List (ℚ × ℚ) → ℚ × ℚ)
    (dates prices : List ℚ) (extrema_idx : List ℕ) : TrendInfo :=
  if extrema_idx.length < 2 then
    { model := none, slope := 0,
      intercept := if extrema_idx.length ≠ 0 then some (pget prices (extrema_idx.getD 0 0)) else none,
      used_points := extrema_idx }
  else
    let mb := fit (extrema_idx.map fun i => (pget dates i, pget prices i))
    { model := some mb, slope := mb.1, intercept := some mb.2,
      used_points := extrema_idx }

/-- line_value_at: predicted price of the model at time coordinate t;
none encodes the nan returned when there is no model. -/
def line_value_at (info : TrendInfo) (t : ℚ) : Option ℚ :=
  match info.model with
  | none => none
  | some mb => some (mb.1 * t + mb.2)

/-- is_touching_line: false on nan (no model), else the relative band
test around the line price. -/
def is_touching_line (price : ℚ) (line_price : Option ℚ) (tolerance : ℚ) : Bool :=
  match line_price with
  | none => false
  | some lp => decide (|price - lp| ≤ tolerance * lp)

/-! ## The bar-by-bar simulator -/

/-- The parameters of one backtest run. -/
structure ParamSet where
  order : ℕ
  prominence : ℚ
  rebalance_bars : ℕ
  touch_tolerance : ℚ
  min_points_for_trend : ℕ
deriving DecidableEq, Repr

/-- The two non-flat trend regimes; the flat regime is the none value of
Option Trend, as in the source where active_trend is a string or None. -/
inductive Trend
  | uptrend
  | downtrend
deriving DecidableEq, Repr

/-- The action tag of a trade record. -/
inductive TradeType
  | buy
  | sell_short
  | exit_long
  | exit_short
deriving DecidableEq, Repr

/-- One trade record: entries carry a size field, exits a pnl field
(matching the keys of the appended dictionaries). -/
structure Trade where
  date : ℚ
  ttype : TradeType
  price : ℚ
  size : Option ℚ
  pnl : Option ℚ
deriving DecidableEq, Repr

/-- The position-related simulator variables. -/
structure PosState where
  position : ℤ
  entry_price : ℚ
  cash : ℚ
  position_size : ℚ
  trades : List Trade
deriving DecidableEq, Repr

/-- The full per-run simulator state. -/
structure SimState where
  ps : PosState
  equity : List ℚ
  active_trend : Option Trend
  active_trend_info : TrendInfo
  last_trend : Option Trend
  trend_switches : List (ℚ × Option Trend)
deriving DecidableEq, Repr

/-- The state at the top of the loop: flat, 100000 cash, no trend. -/
def initState : SimState :=
  { ps := { position := 0, entry_price := 0, cash := 100000, position_size := 0, trades := [] },
    equity := [], active_trend := none, active_trend_info := emptyInfo,
    last_trend := none, trend_switches := [] }

/-- Start index of the trailing detection window at bar i: the code
computes max(0, i - rebalance_bars * 6) via truncated subtraction. -/
def windowStart (p : ParamSet) (i : ℕ) : ℕ := i - p.rebalance_bars * 6

/-- The trailing window of closes prices[start_idx : i + 1] at bar i. -/
def subPrices (prices : List ℚ) (p : ParamSet) (i : ℕ) : List ℚ :=
  (List.range (i + 1 - windowStart p i)).map fun j => pget prices (windowStart p i + j)

/-- Trough indices of the window, shifted to full-series indices. -/
def troughsFull (prices : List ℚ) (p : ParamSet) (i : ℕ) : List ℕ :=
  (detect_local_extrema (subPrices prices p i) p.order p.prominence).1.map
    fun q => windowStart p i + q

/-- Peak indices of the window, shifted to full-series indices. -/
def peaksFull (prices : List ℚ) (p : ParamSet) (i : ℕ) : List ℕ :=
  (detect_local_extrema (subPrices prices p i) p.order p.prominence).2.map
    fun q => windowStart p i + q

/-- Candidate info for one side: fit the trendline only when at least
min_points_for_trend extrema were found, else the inline no-model
dictionary carrying the found indices. -/
def candidateInfo (fit : List (ℚ × ℚ) → ℚ × ℚ) (dates prices : List ℚ)
    (p : ParamSet) (idxs : List ℕ) : TrendInfo :=
  if p.min_points_for_trend ≤ idxs.length then trendline_from_extrema fit dates prices idxs
  else { model := none, slope := 0, intercept := none, used_points := idxs }

/-- Support and resistance candidates at bar i: extrema of the trailing
window (of size rebalance_bars * 6), shifted to full-series indices, each
fit only when at least min_points_for_trend extrema were found. -/
def trendCandidates (fit : List (ℚ × ℚ) → ℚ × ℚ) (dates prices : List ℚ)
    (p : ParamSet) (i : ℕ) : TrendInfo × TrendInfo :=
  (candidateInfo fit dates prices p (troughsFull prices p i),
   candidateInfo fit dates prices p (peaksFull prices p i))

/-- The uptrend candidate qualifies: support slope positive and enough
used points. -/
def uptrendQ (p : ParamSet) (si : TrendInfo) : Bool :=
  decide (0 < si.slope) && decide (p.min_points_for_trend ≤ si.used_points.length)

/-- The downtrend candidate qualifies: resistance slope negative and
enough used points. -/
def downtrendQ (p : ParamSet) (ri : TrendInfo) : Bool :=
  decide (ri.slope < 0) && decide (p.min_points_for_trend ≤ ri.used_points.length)

/-- The hysteresis transition: switch when exactly one candidate
qualifies, otherwise keep the previous trend and its info (resetting the
info to the empty dictionary only in the never-established case). -/
def hysteresis (up down : Bool) (si ri : TrendInfo)
    (lastT : Option Trend) (lastInfo : TrendInfo) : Option Trend × TrendInfo :=
  if up && !down then (some Trend.uptrend, si)
  else if down && !up then (some Trend.downtrend, ri)
  else
    match lastT with
    | some t => (some t, lastInfo)
    | none => (none, emptyInfo)

/-- Entry and exit logic of one bar, acting on the position variables:
all-in entry at the touch of the active line when flat, exit when the
close crosses the line against the position. -/
def tradeLogic (activeT : Option Trend) (tlp : Option ℚ)
    (tol cur_price cur_date : ℚ) (s : PosState) : PosState :=
  if s.position = 0 then
    if activeT = some Trend.uptrend ∧ is_touching_line cur_price tlp tol = true then
      { position := 1, entry_price := cur_price, cash := 0, position_size := s.cash,
        trades := s.trades ++ [{ date := cur_date, ttype := TradeType.buy,
                                 price := cur_price, size := some s.cash, pnl := none }] }
    else if activeT = some Trend.downtrend ∧ is_touching_line cur_price tlp tol = true then
      { position := -1, entry_price := cur_price, cash := 0, position_size := s.cash,
        trades := s.trades ++ [{ date := cur_date, ttype := TradeType.sell_short,
                                 price := cur_price, size := some s.cash, pnl := none }] }
    else s
  else if s.position = 1 then
    match tlp with
    | some lp =>
      if cur_price < lp then
        let pnl := (cur_price - s.entry_price) / s.entry_price * s.position_size
        { position := 0, entry_price := 0, cash := s.position_size + pnl, position_size := 0,
          trades := s.trades ++ [{ date := cur_date, ttype := TradeType.exit_long,
                                   price := cur_price, size := none, pnl := some pnl }] }
      else s
    | none => s
  else if s.position = -1 then
    match tlp with
    | some lp =>
      if lp < cur_price then
        let pnl := (s.entry_price - cur_price) / s.entry_price * s.position_size
        { position := 0, entry_price := 0, cash := s.position_size + pnl, position_size := 0,
          trades := s.trades ++ [{ date := cur_date, ttype := TradeType.exit_short,
                                   price := cur_price, size := none, pnl := some pnl }] }
      else s
    | none => s
  else s

/-- Mark-to-market equity of the bar: cash when flat, scaled notional
when long or short. -/
def markToMarket (s : PosState) (cur_price : ℚ) : ℚ :=
  if s.position = 0 then s.cash
  else if s.position = 1 then s.position_size * (cur_price / s.entry_price)
  else s.position_size * (s.entry_price / cur_price)

/-- The bar body once the candidates and the current coordinates are
known: hysteresis transition, switch logging, touch and trade logic,
mark-to-market equity append. -/
def simStepCore (p : ParamSet) (c : TrendInfo × TrendInfo) (cur_date cur_price : ℚ)
    (s : SimState) : SimState :=
  let at_ := hysteresis (uptrendQ p c.1) (downtrendQ p c.2) c.1 c.2
    s.last_trend s.active_trend_info
  let switches :=
    if at_.1 ≠ s.last_trend then s.trend_switches ++ [(cur_date, at_.1)]
    else s.trend_switches
  let tlp := line_value_at at_.2 cur_date
  let ps2 := tradeLogic at_.1 tlp p.touch_tolerance cur_price cur_date s.ps
  { ps := ps2, equity := s.equity ++ [markToMarket ps2 cur_price],
    active_trend := at_.1, active_trend_info := at_.2,
    last_trend := at_.1, trend_switches := switches }

/-- One iteration of the backtest loop at bar i. -/
def simStep (fit : List (ℚ × ℚ) → ℚ × ℚ) (dates prices : List ℚ)
    (p : ParamSet) (i : ℕ) (s : SimState) : SimState :=
  simStepCore p (trendCandidates fit dates prices p i) (pget dates i) (pget prices i) s

/-- State after the first k bars of the loop. -/
def runBars (fit : List (ℚ × ℚ) → ℚ × ℚ) (dates prices : List ℚ)
    (p : ParamSet) : ℕ → SimState
  | 0 => initState
  | k + 1 => simStep fit dates prices p k (runBars fit dates prices p k)

/-- backtest_trendline_strategy: run the loop over every bar and return
the final state (equity series, trade ledger, active trend info and
switch ledger). -/
def backtest_trendline_strategy (fit : List (ℚ × ℚ) → ℚ × ℚ)
    (dates prices : List ℚ) (p : ParamSet) : SimState :=
  runBars fit dates prices p prices.length

/-! ## Parameter sweep: per-combo metrics and the two leaderboards -/

/-- Insertion into a sorted list of rationals, ascending. -/
def insertRat (a : ℚ) : List ℚ → List ℚ
  | [] => [a]
  | b :: l => if a ≤ b then a :: b :: l else b :: insertRat a l

/-- Ascending insertion sort of rationals. -/
def sortRat : List ℚ → List ℚ
  | [] => []
  | a :: l => insertRat a (sortRat l)

/-- Median as pandas computes it on a nonempty numeric column: middle
element of the sorted values, or the mean of the two middles. -/
def pandasMedian (l : List ℚ) : ℚ :=
  let s := sortRat l
  let n := s.length
  if n % 2 = 1 then s.getD (n / 2) 0
  else (s.getD (n / 2 - 1) 0 + s.getD (n / 2) 0) / 2

/-- The realized PnL column: the pnl values of the exit records.  The
entry records have no pnl key, so pandas stores nan there and the median
skips them; the pnl column exists at all iff this list is nonempty. -/
def realizedPnls (trades : List Trade) : List ℚ :=
  trades.filterMap Trade.pnl

/-- Median trade PnL of a run; none encodes the float minus-infinity
sentinel assigned when the ledger has no pnl column (zero exits). -/
def medianPnl (trades : List Trade) : Option ℚ :=
  let l := realizedPnls trades
  if l.isEmpty then none else some (pandasMedian l)

/-- Strict greater-than on metric values where none is minus infinity,
matching IEEE comparison of floats against float(-inf). -/
def wgt : Option ℚ → Option ℚ → Bool
  | some a, some b => decide (b < a)
  | some _, none => true
  | none, _ => false

/-- run_backtest_combo: run one combination and report (median trade
PnL, final equity).  The source reads the final equity with iloc[-1],
which presupposes a nonempty bar sequence (empty input is fatal). -/
def run_backtest_combo (fit : List (ℚ × ℚ) → ℚ × ℚ) (dates prices : List ℚ)
    (p : ParamSet) : Option ℚ × ℚ :=
  let r := backtest_trendline_strategy fit dates prices p
  (medianPnl r.ps.trades, r.equity.getD (r.equity.length - 1) 0)

/-- The accumulator of the grid-search ranking loop. -/
structure RankState where
  best_median_val : Option ℚ
  best_median_params : Option ParamSet
  best_equity_val : Option ℚ
  best_equity_params : Option ParamSet
deriving DecidableEq, Repr

/-- Initial ranking accumulator: both running maxima at minus infinity,
no winner recorded. -/
def initRank : RankState :=
  { best_median_val := none, best_median_params := none,
    best_equity_val := none, best_equity_params := none }

/-- One iteration of the ranking loop over a completed combination. -/
def rankStep (fit : List (ℚ × ℚ) → ℚ × ℚ) (dates prices : List ℚ)
    (st : RankState) (p : ParamSet) : RankState :=
  let me := run_backtest_combo fit dates prices p
  let st1 :=
    if wgt me.1 st.best_median_val then
      { st with best_median_val := me.1, best_median_params := some p }
    else st
  if wgt (some me.2) st1.best_equity_val then
    { st1 with best_equity_val := some me.2, best_equity_params := some p }
  else st1

/-- The grid-search ranking: run every combination and keep the two
leaderboard winners (ties keep the earlier combination). -/
def gridSearch (fit : List (ℚ × ℚ) → ℚ × ℚ) (dates prices : List ℚ)
    (combos : List ParamSet) : RankState :=
  combos.foldl (rankStep fit dates prices) initRank

/-! ## Concrete inputs used by witnesses and counterexamples -/

/-- Time coordinates 0..7 of an eight-bar input. -/
def dates8 : List ℚ := [0, 1, 2, 3, 4, 5, 6, 7]

/-- Eight strictly positive closes: descending peaks 10, 8 form a
resistance line of slope -1; the close touches it at bar 5 (short entry
at 6), breaks above at bar 6 (exit at 13, more than twice the entry),
and touches the retained stale line again at bar 7. -/
def prices8 : List ℚ := [1, 10, 1, 8, 1, 6, 13, 4]

/-- Like prices8 but with a different final bar, for the causality
witness. -/
def prices8b : List ℚ := [1, 10, 1, 8, 1, 6, 13, 999]

/-- Three bars of constant positive price: no extrema, no trades. -/
def pricesFlat : List ℚ := [5, 5, 5]

/-- Time coordinates of the flat input. -/
def datesFlat : List ℚ := [0, 1, 2]

/-- A combination that trades on prices8: every local extremum counts
(order 1, zero prominence), window larger than the series, 1 percent
touch tolerance, two points suffice for a trendline. -/
def comboB : ParamSet :=
  { order := 1, prominence := 0, rebalance_bars := 24,
    touch_tolerance := 1 / 100, min_points_for_trend := 2 }

/-- A degenerate combination that never finds a trend (100 extrema
required), hence never trades. -/
def comboA : ParamSet :=
  { order := 1, prominence := 0, rebalance_bars := 24,
    touch_tolerance := 1 / 100, min_points_for_trend := 100 }

/-- Time coordinates 0..5 of a six-bar input. -/
def dates9 : List ℚ := [0, 1, 2, 3, 4, 5]

/-- Six strictly positive closes with rising troughs 5, 6: the support
line has slope 1/2 and the close touches it at bar 5, opening a long. -/
def prices9 : List ℚ := [10, 5, 10, 6, 10, 7]

/-! ## Basic step lemmas -/

lemma runBars_succ (fit : List (ℚ × ℚ) → ℚ × ℚ) (dates prices : List ℚ)
    (p : ParamSet) (k : ℕ) :
    runBars fit dates prices p (k + 1) =
      simStep fit dates prices p k (runBars fit dates prices p k) := rfl

/-- After every bar the last_trend variable holds the active trend of
that bar (the loop ends each iteration with last_trend = active_trend). -/
lemma runBars_last_eq_active (fit : List (ℚ × ℚ) → ℚ × ℚ) (dates prices : List ℚ)
    (p : ParamSet) (k : ℕ) :
    (runBars fit dates prices p k).last_trend = (runBars fit dates prices p k).active_trend := by
  cases k <;> rfl

/-- When both or neither candidate qualifies, the hysteresis branch
keeps the previous trend, and keeps its info whenever a trend exists. -/
lemma hysteresis_retain (up down : Bool) (si ri li : TrendInfo) (lt : Option Trend)
    (h : up = down) :
    hysteresis up down si ri lt li =
      match lt with
      | some t => (some t, li)
      | none => (none, emptyInfo) := by
  subst h; cases up <;> cases lt <;> simp [hysteresis]

/-- If the hysteresis output has no trend then the input had no trend and
the output info is the empty dictionary. -/
lemma hysteresis_active_none (up down : Bool) (si ri li : TrendInfo) (lt : Option Trend)
    (h : (hysteresis up down si ri lt li).1 = none) :
    lt = none ∧ (hysteresis up down si ri lt li).2 = emptyInfo := by
  cases up <;> cases down <;> cases lt <;> simp_all [hysteresis]

/-- The hysteresis output keeps a trend whenever the input had one. -/
lemma hysteresis_ne_none (up down : Bool) (si ri li : TrendInfo) (lt : Option Trend)
    (h : lt ≠ none) : (hysteresis up down si ri lt li).1 ≠ none := by
  cases up <;> cases down <;> cases lt <;> simp_all [hysteresis]

/-- While no trend has ever been established the active info is the
empty dictionary. -/
lemma runBars_active_none_info (fit : List (ℚ × ℚ) → ℚ × ℚ) (dates prices : List ℚ)
    (p : ParamSet) (k : ℕ) (h : (runBars fit dates prices p k).active_trend = none) :
    (runBars fit dates prices p k).active_trend_info = emptyInfo := by
  cases k with
  | zero => rfl
  | succ n => exact (hysteresis_active_none _ _ _ _ _ _ h).2

/-- C3: at every bar of the tracker loop, if zero or both of the uptrend
and downtrend candidates qualify, the active trend state and its active
model after that bar equal the active trend state and model after the
previous bar. -/
theorem C3_hysteresis_retention (fit : List (ℚ × ℚ) → ℚ × ℚ) (dates prices : List ℚ)
    (p : ParamSet) (k : ℕ)
    (h : uptrendQ p (trendCandidates fit dates prices p k).1 =
      downtrendQ p (trendCandidates fit dates prices p k).2) :
    (runBars fit dates prices p (k + 1)).active_trend =
      (runBars fit dates prices p k).active_trend ∧
    (runBars fit dates prices p (k + 1)).active_trend_info =
      (runBars fit dates prices p k).active_trend_info := by
  have e1 : (runBars fit dates prices p (k + 1)).active_trend =
      (hysteresis (uptrendQ p (trendCandidates fit dates prices p k).1)
        (downtrendQ p (trendCandidates fit dates prices p k).2)
        (trendCandidates fit dates prices p k).1
        (trendCandidates fit dates prices p k).2
        (runBars fit dates prices p k).last_trend
        (runBars fit dates prices p k).active_trend_info).1 := rfl
  have e2 : (runBars fit dates prices p (k + 1)).active_trend_info =
      (hysteresis (uptrendQ p (trendCandidates fit dates prices p k).1)
        (downtrendQ p (trendCandidates fit dates prices p k).2)
        (trendCandidates fit dates prices p k).1
        (trendCandidates fit dates prices p k).2
        (runBars fit dates prices p k).last_trend
        (runBars fit dates prices p k).active_trend_info).2 := rfl
  rw [e1, e2, hysteresis_retain _ _ _ _ _ _ h, runBars_last_eq_active]
  cases hact : (runBars fit dates prices p k).active_trend with
  | none => exact ⟨rfl, (runBars_active_none_info fit dates prices p k hact).symm⟩
  | some t => exact ⟨rfl, rfl⟩

/-- C3 witness: at bar 7 of the eight-bar run neither candidate
qualifies (support slope 0, resistance slope positive), and the trend
state and model are retained. -/
theorem C3_witness :
    uptrendQ comboB (trendCandidates olsFit dates8 prices8 comboB 7).1 =
      downtrendQ comboB (trendCandidates olsFit dates8 prices8 comboB 7).2 ∧
    (runBars olsFit dates8 prices8 comboB 8).active_trend =
      (runBars olsFit dates8 prices8 comboB 7).active_trend := by
  have h : uptrendQ comboB (trendCandidates olsFit dates8 prices8 comboB 7).1 =
      downtrendQ comboB (trendCandidates olsFit dates8 prices8 comboB 7).2 :=
    of_decide_eq_true (by with_unfolding_all rfl)
  exact ⟨h, (C3_hysteresis_retention olsFit dates8 prices8 comboB 7 h).1⟩

/-- C4: once the active trend is Uptrend or Downtrend it never reverts
to the flat none state at any later bar. -/
theorem C4_no_return_to_flat (fit : List (ℚ × ℚ) → ℚ × ℚ) (dates prices : List ℚ)
    (p : ParamSet) (i j : ℕ) (hij : i ≤ j)
    (h : (runBars fit dates prices p i).active_trend ≠ none) :
    (runBars fit dates prices p j).active_trend ≠ none := by
  induction j, hij using Nat.le_induction with
  | base => exact h
  | succ m _ ih =>
    have hl : (runBars fit dates prices p m).last_trend ≠ none := by
      rw [runBars_last_eq_active]; exact ih
    exact hysteresis_ne_none _ _ _ _ _ _ hl

/-- C4 witness: the eight-bar run establishes a downtrend by bar 5 and
still holds a trend after bar 8. -/
theorem C4_witness :
    (runBars olsFit dates8 prices8 comboB 5).active_trend ≠ none ∧
    (runBars olsFit dates8 prices8 comboB 8).active_trend ≠ none := by
  have h : (runBars olsFit dates8 prices8 comboB 5).active_trend ≠ none :=
    of_decide_eq_true (by with_unfolding_all rfl)
  exact ⟨h, C4_no_return_to_flat olsFit dates8 prices8 comboB 5 8 (by omega) h⟩

/-- C5 (amended): detect_local_extrema returns empty trough and peak
sets on every window of length less than 3 (find_peaks admits no peak at
the two boundary samples, so windows of length 0, 1 or 2 yield none;
length 2 * order + 1 is not the relevant bound). -/
theorem C5_short_window_empty (series : List ℚ) (order : ℕ) (prominence : ℚ)
    (h : series.length < 3) :
    detect_local_extrema series order prominence = ([], []) := by
  rcases series with _ | ⟨a, _ | ⟨b, _ | ⟨c, r⟩⟩⟩
  · rfl
  · rfl
  · rfl
  · exfalso; simp [List.length] at h; omega

/-- C5 witness: a two-element window with arbitrary order 6 and
prominence 1/2 yields empty extrema sets. -/
theorem C5_witness :
    ([(5 : ℚ), 7].length < 3) ∧ detect_local_extrema [(5 : ℚ), 7] 6 (1 / 2) = ([], []) :=
  ⟨by decide, C5_short_window_empty [(5 : ℚ), 7] 6 (1 / 2) (by decide)⟩

/-- C5 counterexample: the window 1, 3, 1 is shorter than
2 * order + 1 = 11 for order 5, yet find_peaks reports the interior
local maximum at index 1, so the extrema sets are not empty.  The
distance argument of find_peaks constrains the spacing between peaks,
not the window length. -/
theorem C5_counterexample :
    (([(1 : ℚ), 3, 1] : List ℚ).length < 2 * 5 + 1) ∧
    detect_local_extrema [(1 : ℚ), 3, 1] 5 0 ≠ ([], []) :=
  of_decide_eq_true (by with_unfolding_all rfl)

/-! ## Touch predicate and no-model bars -/

lemma line_value_at_none (info : TrendInfo) (t : ℚ) (h : info.model = none) :
    line_value_at info t = none := by
  unfold line_value_at; rw [h]

/-- With no line price (nan) the bar can neither enter nor exit: the
trade logic leaves the position variables untouched. -/
lemma tradeLogic_tlp_none (a : Option Trend) (tol cp cd : ℚ) (s : PosState) :
    tradeLogic a none tol cp cd s = s := by
  unfold tradeLogic
  simp [is_touching_line]

/-- C8: is_touching_line is false when the line price is undefined (no
model, nan), true exactly when the absolute gap is within the relative
tolerance band; and on a bar whose active info carries no model the
simulator neither trades nor changes position. -/
theorem C8_touch_predicate :
    (∀ pr tol : ℚ, is_touching_line pr none tol = false) ∧
    (∀ pr lp tol : ℚ, is_touching_line pr (some lp) tol = true ↔ |pr - lp| ≤ tol * lp) ∧
    (∀ (fit : List (ℚ × ℚ) → ℚ × ℚ) (dates prices : List ℚ) (p : ParamSet) (k : ℕ),
      (runBars fit dates prices p (k + 1)).active_trend_info.model = none →
      (runBars fit dates prices p (k + 1)).ps.trades = (runBars fit dates prices p k).ps.trades ∧
      (runBars fit dates prices p (k + 1)).ps.position = (runBars fit dates prices p k).ps.position) := by
  refine ⟨fun pr tol => rfl, fun pr lp tol => by simp [is_touching_line], ?_⟩
  intro fit dates prices p k h
  have e : (runBars fit dates prices p (k + 1)).ps =
      tradeLogic (runBars fit dates prices p (k + 1)).active_trend
        (line_value_at (runBars fit dates prices p (k + 1)).active_trend_info (pget dates k))
        p.touch_tolerance (pget prices k) (pget dates k)
        (runBars fit dates prices p k).ps := rfl
  rw [line_value_at_none _ _ h, tradeLogic_tlp_none] at e
  exact ⟨congrArg PosState.trades e, congrArg PosState.position e⟩

/-- C8 witness: at bar 0 of the flat run no model exists, the touch
predicate is false on the undefined line, and no trade occurs. -/
theorem C8_witness :
    (runBars olsFit datesFlat pricesFlat comboB 1).active_trend_info.model = none ∧
    is_touching_line 5 none (1 / 100) = false ∧
    (runBars olsFit datesFlat pricesFlat comboB 1).ps.trades =
      (runBars olsFit datesFlat pricesFlat comboB 0).ps.trades := by
  have h : (runBars olsFit datesFlat pricesFlat comboB 1).active_trend_info.model = none :=
    of_decide_eq_true (by with_unfolding_all rfl)
  exact ⟨h, C8_touch_predicate.1 5 (1 / 100),
    (C8_touch_predicate.2.2 olsFit datesFlat pricesFlat comboB 0 h).1⟩

/-! ## Per-bar trade accounting -/

/-- Unfolded form of the trade logic on a defined line price, with the
Option match and the let binding reduced away. -/
lemma tradeLogic_some_eq (a : Option Trend) (lp tol cp cd : ℚ) (s : PosState) :
    tradeLogic a (some lp) tol cp cd s =
      if s.position = 0 then
        if a = some Trend.uptrend ∧ is_touching_line cp (some lp) tol = true then
          { position := 1, entry_price := cp, cash := 0, position_size := s.cash,
            trades := s.trades ++ [{ date := cd, ttype := TradeType.buy,
                                     price := cp, size := some s.cash, pnl := none }] }
        else if a = some Trend.downtrend ∧ is_touching_line cp (some lp) tol = true then
          { position := -1, entry_price := cp, cash := 0, position_size := s.cash,
            trades := s.trades ++ [{ date := cd, ttype := TradeType.sell_short,
                                     price := cp, size := some s.cash, pnl := none }] }
        else s
      else if s.position = 1 then
        if cp < lp then
          { position := 0, entry_price := 0,
            cash := s.position_size + (cp - s.entry_price) / s.entry_price * s.position_size,
            position_size := 0,
            trades := s.trades ++ [{ date := cd, ttype := TradeType.exit_long, price := cp,
                                     size := none,
                                     pnl := some ((cp - s.entry_price) / s.entry_price * s.position_size) }] }
        else s
      else if s.position = -1 then
        if lp < cp then
          { position := 0, entry_price := 0,
            cash := s.position_size + (s.entry_price - cp) / s.entry_price * s.position_size,
            position_size := 0,
            trades := s.trades ++ [{ date := cd, ttype := TradeType.exit_short, price := cp,
                                     size := none,
                                     pnl := some ((s.entry_price - cp) / s.entry_price * s.position_size) }] }
        else s
      else s := rfl

/-- One bar of trade logic either leaves the position state untouched or
appends exactly one record: an entry record from a flat position leaving
it open, or an exit record from an open position leaving it flat. -/
lemma tradeLogic_cases (a : Option Trend) (tlp : Option ℚ) (tol cp cd : ℚ) (s : PosState) :
    tradeLogic a tlp tol cp cd s = s ∨
    ∃ t, (tradeLogic a tlp tol cp cd s).trades = s.trades ++ [t] ∧
      (((t.ttype = TradeType.buy ∨ t.ttype = TradeType.sell_short) ∧
          (tradeLogic a tlp tol cp cd s).position ≠ 0 ∧ s.position = 0) ∨
       ((t.ttype = TradeType.exit_long ∨ t.ttype = TradeType.exit_short) ∧
          (tradeLogic a tlp tol cp cd s).position = 0 ∧ s.position ≠ 0)) := by
  rcases tlp with _ | lp
  · exact Or.inl (tradeLogic_tlp_none a tol cp cd s)
  · rw [tradeLogic_some_eq]
    split_ifs with hpos0 hg1 hg2 hpos1 hlt hposm1 hgt
    · exact Or.inr ⟨_, rfl, Or.inl ⟨Or.inl rfl, by simp, hpos0⟩⟩
    · exact Or.inr ⟨_, rfl, Or.inl ⟨Or.inr rfl, by simp, hpos0⟩⟩
    · exact Or.inl rfl
    · exact Or.inr ⟨_, rfl, Or.inr ⟨Or.inl rfl, rfl, by rw [hpos1]; simp⟩⟩
    · exact Or.inl rfl
    · exact Or.inr ⟨_, rfl, Or.inr ⟨Or.inr rfl, rfl, by rw [hposm1]; simp⟩⟩
    · exact Or.inl rfl
    · exact Or.inl rfl

/-- C10: every bar appends at most one record to the trade ledger; when
one is appended it is either an entry, made from a flat position and
leaving the position open at the end of the bar (so a position opened at
bar i is not closed at bar i), or an exit, made from an open position
and leaving the position flat at the end of the bar (so a position
closed at bar i is not re-opened at bar i). -/
theorem C10_one_trade_per_bar (fit : List (ℚ × ℚ) → ℚ × ℚ) (dates prices : List ℚ)
    (p : ParamSet) (k : ℕ) :
    (runBars fit dates prices p (k + 1)).ps.trades = (runBars fit dates prices p k).ps.trades ∨
    ∃ t, (runBars fit dates prices p (k + 1)).ps.trades =
        (runBars fit dates prices p k).ps.trades ++ [t] ∧
      (((t.ttype = TradeType.buy ∨ t.ttype = TradeType.sell_short) ∧
          (runBars fit dates prices p (k + 1)).ps.position ≠ 0 ∧
          (runBars fit dates prices p k).ps.position = 0) ∨
       ((t.ttype = TradeType.exit_long ∨ t.ttype = TradeType.exit_short) ∧
          (runBars fit dates prices p (k + 1)).ps.position = 0 ∧
          (runBars fit dates prices p k).ps.position ≠ 0)) := by
  have e : (runBars fit dates prices p (k + 1)).ps =
      tradeLogic (runBars fit dates prices p (k + 1)).active_trend
        (line_value_at (runBars fit dates prices p (k + 1)).active_trend_info (pget dates k))
        p.touch_tolerance (pget prices k) (pget dates k)
        (runBars fit dates prices p k).ps := rfl
  rw [e]
  rcases tradeLogic_cases (runBars fit dates prices p (k + 1)).active_trend
      (line_value_at (runBars fit dates prices p (k + 1)).active_trend_info (pget dates k))
      p.touch_tolerance (pget prices k) (pget dates k)
      (runBars fit dates prices p k).ps with h | hx
  · exact Or.inl (congrArg PosState.trades h)
  · exact Or.inr hx

/-! ## Cash, notional and equity invariants -/

/-- The reachable shape of the position variables in a run that has not
shorted: flat with zero notional and positive cash, or long with zero
cash, positive notional and positive entry price. -/
def goodPos (s : PosState) : Prop :=
  (s.position = 0 ∧ s.position_size = 0 ∧ 0 < s.cash) ∨
  (s.position = 1 ∧ s.cash = 0 ∧ 0 < s.position_size ∧ 0 < s.entry_price)

/-- A flat position always carries zero notional. -/
def flatOk (s : PosState) : Prop := s.position = 0 → s.position_size = 0

lemma tradeLogic_flat (a : Option Trend) (tlp : Option ℚ) (tol cp cd : ℚ)
    (s : PosState) (h : flatOk s) : flatOk (tradeLogic a tlp tol cp cd s) := by
  rcases tlp with _ | lp
  · rw [tradeLogic_tlp_none]; exact h
  · rw [tradeLogic_some_eq]
    split_ifs <;> intro hh <;> first
      | rfl
      | exact h hh
      | simp at hh

/-- After any number of bars, a flat position has zero notional. -/
lemma runBars_flat (fit : List (ℚ × ℚ) → ℚ × ℚ) (dates prices : List ℚ)
    (p : ParamSet) (k : ℕ) : flatOk (runBars fit dates prices p k).ps := by
  induction k with
  | zero => exact fun _ => rfl
  | succ n ih => exact tradeLogic_flat _ _ _ _ _ _ ih

lemma markToMarket_nonneg (s : PosState) (cp : ℚ) (hcp : 0 < cp) (h : goodPos s) :
    0 ≤ markToMarket s cp := by
  rcases h with ⟨h0, _, hc⟩ | ⟨h1, _, hsz, he⟩
  · rw [markToMarket, if_pos h0]; exact le_of_lt hc
  · rw [markToMarket, if_neg (by rw [h1]; decide), if_pos h1]; positivity

/-- One bar of trade logic preserves the no-short position invariant
when the close is positive and the bar did not append a short entry. -/
lemma tradeLogic_good (a : Option Trend) (tlp : Option ℚ) (tol cp cd : ℚ)
    (s : PosState) (hcp : 0 < cp) (hg : goodPos s)
    (hns : ∀ t ∈ (tradeLogic a tlp tol cp cd s).trades, t.ttype ≠ TradeType.sell_short) :
    goodPos (tradeLogic a tlp tol cp cd s) := by
  rcases tlp with _ | lp
  · rw [tradeLogic_tlp_none]; exact hg
  · rw [tradeLogic_some_eq] at hns ⊢
    split_ifs at hns ⊢ with hpos0 hg1 hg2 hpos1 hlt hposm1 hgt
    · rcases hg with ⟨_, _, hc⟩ | ⟨h1, _, _, _⟩
      · exact Or.inr ⟨rfl, rfl, hc, hcp⟩
      · exact absurd h1 (by rw [hpos0]; decide)
    · exact absurd rfl
        (hns { date := cd, ttype := TradeType.sell_short, price := cp,
               size := some s.cash, pnl := none }
          (List.mem_append_right _ (List.mem_singleton_self _)))
    · exact hg
    · rcases hg with ⟨h0, _, _⟩ | ⟨_, _, hsz, he⟩
      · exact absurd h0 hpos0
      · refine Or.inl ⟨rfl, rfl, ?_⟩
        have hrw : s.position_size + (cp - s.entry_price) / s.entry_price * s.position_size =
            s.position_size * cp / s.entry_price := by
          field_simp; ring
        rw [hrw]; positivity
    · exact hg
    · rcases hg with ⟨h0, _, _⟩ | ⟨h1, _, _, _⟩
      · exact absurd h0 hpos0
      · exact absurd h1 hpos1
    · exact hg
    · exact hg

/-- The trade ledger only grows: later states extend earlier ones. -/
lemma runBars_trades_append (fit : List (ℚ × ℚ) → ℚ × ℚ) (dates prices : List ℚ)
    (p : ParamSet) (k m : ℕ) (hkm : k ≤ m) :
    ∃ l, (runBars fit dates prices p m).ps.trades =
      (runBars fit dates prices p k).ps.trades ++ l := by
  induction m, hkm using Nat.le_induction with
  | base => exact ⟨[], (List.append_nil _).symm⟩
  | succ n _ ih =>
    obtain ⟨l, hl⟩ := ih
    have e : (runBars fit dates prices p (n + 1)).ps =
        tradeLogic (runBars fit dates prices p (n + 1)).active_trend
          (line_value_at (runBars fit dates prices p (n + 1)).active_trend_info (pget dates n))
          p.touch_tolerance (pget prices n) (pget dates n)
          (runBars fit dates prices p n).ps := rfl
    rcases tradeLogic_cases (runBars fit dates prices p (n + 1)).active_trend
        (line_value_at (runBars fit dates prices p (n + 1)).active_trend_info (pget dates n))
        p.touch_tolerance (pget prices n) (pget dates n)
        (runBars fit dates prices p n).ps with h | ⟨t, ht, _⟩
    · refine ⟨l, ?_⟩
      rw [e, h, hl]
    · refine ⟨l ++ [t], ?_⟩
      rw [e, ht, hl, List.append_assoc]

/-- Main invariant of a positive-price run whose ledger after k bars has
no short entry: the position variables are good and all equity marks so
far are non-negative. -/
lemma runBars_good (fit : List (ℚ × ℚ) → ℚ × ℚ) (dates prices : List ℚ)
    (p : ParamSet) (hpos : ∀ q ∈ prices, 0 < q) (k : ℕ) (hk : k ≤ prices.length)
    (hns : ∀ t ∈ (runBars fit dates prices p k).ps.trades, t.ttype ≠ TradeType.sell_short) :
    goodPos (runBars fit dates prices p k).ps ∧
    ∀ x ∈ (runBars fit dates prices p k).equity, 0 ≤ x := by
  induction k with
  | zero =>
    refine ⟨Or.inl ⟨rfl, rfl, by show (0 : ℚ) < 100000; norm_num⟩, ?_⟩
    intro x hx
    simp [runBars, initState] at hx
  | succ n ih =>
    have hcp : 0 < pget prices n := by
      have hlt : n < prices.length := by omega
      have hm : pget prices n ∈ prices := by
        rw [pget, List.getD_eq_getElem _ _ hlt]
        exact List.getElem_mem hlt
      exact hpos _ hm
    have e : (runBars fit dates prices p (n + 1)).ps =
        tradeLogic (runBars fit dates prices p (n + 1)).active_trend
          (line_value_at (runBars fit dates prices p (n + 1)).active_trend_info (pget dates n))
          p.touch_tolerance (pget prices n) (pget dates n)
          (runBars fit dates prices p n).ps := rfl
    have hns1 : ∀ t ∈ (runBars fit dates prices p n).ps.trades,
        t.ttype ≠ TradeType.sell_short := by
      intro t ht
      apply hns
      obtain ⟨l, hl⟩ := runBars_trades_append fit dates prices p n (n + 1) (by omega)
      rw [hl]
      exact List.mem_append_left _ ht
    have ihh := ih (by omega) hns1
    have hgood : goodPos (runBars fit dates prices p (n + 1)).ps := by
      rw [e]
      refine tradeLogic_good _ _ _ _ _ _ hcp ihh.1 ?_
      rw [← e]
      exact hns
    refine ⟨hgood, ?_⟩
    have eq2 : (runBars fit dates prices p (n + 1)).equity =
        (runBars fit dates prices p n).equity ++
          [markToMarket (runBars fit dates prices p (n + 1)).ps (pget prices n)] := rfl
    intro x hx
    rw [eq2] at hx
    rcases List.mem_append.mp hx with h | h
    · exact ihh.2 x h
    · rw [List.mem_singleton] at h
      subst h
      exact markToMarket_nonneg _ _ hcp hgood

/-- C1 (amended): with all-in unleveraged sizing and strictly positive
closes, every equity value of a run whose ledger contains no short entry
is non-negative.  (The original unconditional claim fails: a short
closed above twice its entry price makes cash, and hence equity,
negative; see the counterexample.) -/
theorem C1_equity_nonneg_no_short (fit : List (ℚ × ℚ) → ℚ × ℚ)
    (dates prices : List ℚ) (p : ParamSet) (hpos : ∀ q ∈ prices, 0 < q)
    (hns : ∀ t ∈ (backtest_trendline_strategy fit dates prices p).ps.trades,
      t.ttype ≠ TradeType.sell_short) :
    ∀ x ∈ (backtest_trendline_strategy fit dates prices p).equity, 0 ≤ x :=
  (runBars_good fit dates prices p hpos prices.length le_rfl hns).2

/-- C1 witness: the six-bar rising-trough run has positive closes, one
long entry and no short entry, and all its equity values are
non-negative. -/
theorem C1_witness :
    (∀ q ∈ prices9, 0 < q) ∧
    (∀ t ∈ (backtest_trendline_strategy olsFit dates9 prices9 comboB).ps.trades,
      t.ttype ≠ TradeType.sell_short) ∧
    ∀ x ∈ (backtest_trendline_strategy olsFit dates9 prices9 comboB).equity, 0 ≤ x := by
  have h1 : ∀ q ∈ prices9, 0 < q := of_decide_eq_true (by with_unfolding_all rfl)
  have h2 : ∀ t ∈ (backtest_trendline_strategy olsFit dates9 prices9 comboB).ps.trades,
      t.ttype ≠ TradeType.sell_short := of_decide_eq_true (by with_unfolding_all rfl)
  exact ⟨h1, h2, C1_equity_nonneg_no_short olsFit dates9 prices9 comboB h1 h2⟩

/-- C1 counterexample: the eight-bar input has strictly positive closes
throughout, yet the equity at bar 6 is negative (-50000/3): the short
opened at 6 is closed at 13, more than twice its entry, leaving negative
cash. -/
theorem C1_counterexample :
    (∀ q ∈ prices8, 0 < q) ∧
    (backtest_trendline_strategy olsFit dates8 prices8 comboB).equity.getD 6 0 < 0 :=
  of_decide_eq_true (by with_unfolding_all rfl)

/-- C7 (amended): notional is positive only while the position is open
(a flat position carries zero notional), an entry record is only ever
appended from a flat position, and in a positive-price run whose final
ledger has no short entry an open position carries strictly positive
notional.  (The original claim that an open position always carries
strictly positive notional fails: after a short is closed above twice
its entry, cash is negative and the next entry sets a negative notional;
see the counterexample.) -/
theorem C7_position_notional (fit : List (ℚ × ℚ) → ℚ × ℚ) (dates prices : List ℚ)
    (p : ParamSet) (k : ℕ) :
    (0 < (runBars fit dates prices p k).ps.position_size →
      (runBars fit dates prices p k).ps.position ≠ 0) ∧
    ((runBars fit dates prices p (k + 1)).ps.trades = (runBars fit dates prices p k).ps.trades ∨
      ∃ t, (runBars fit dates prices p (k + 1)).ps.trades =
          (runBars fit dates prices p k).ps.trades ++ [t] ∧
        ((t.ttype = TradeType.buy ∨ t.ttype = TradeType.sell_short) →
          (runBars fit dates prices p k).ps.position = 0)) ∧
    ((∀ q ∈ prices, 0 < q) →
      (∀ t ∈ (runBars fit dates prices p prices.length).ps.trades,
        t.ttype ≠ TradeType.sell_short) →
      k ≤ prices.length →
      (runBars fit dates prices p k).ps.position ≠ 0 →
      0 < (runBars fit dates prices p k).ps.position_size) := by
  refine ⟨?_, ?_, ?_⟩
  · intro hsz h0
    rw [runBars_flat fit dates prices p k h0] at hsz
    exact absurd hsz (by norm_num)
  · have e : (runBars fit dates prices p (k + 1)).ps =
        tradeLogic (runBars fit dates prices p (k + 1)).active_trend
          (line_value_at (runBars fit dates prices p (k + 1)).active_trend_info (pget dates k))
          p.touch_tolerance (pget prices k) (pget dates k)
          (runBars fit dates prices p k).ps := rfl
    rcases tradeLogic_cases (runBars fit dates prices p (k + 1)).active_trend
        (line_value_at (runBars fit dates prices p (k + 1)).active_trend_info (pget dates k))
        p.touch_tolerance (pget prices k) (pget dates k)
        (runBars fit dates prices p k).ps with h | ⟨t, ht, hc⟩
    · left; rw [e, h]
    · right
      refine ⟨t, by rw [e]; exact ht, ?_⟩
      intro hentry
      rcases hc with ⟨_, _, h0⟩ | ⟨hex, _, _⟩
      · exact h0
      · rcases hentry with h | h <;> rcases hex with h2 | h2 <;> rw [h] at h2 <;> cases h2
  · intro hpos hns hk hopen
    have hnsk : ∀ t ∈ (runBars fit dates prices p k).ps.trades,
        t.ttype ≠ TradeType.sell_short := by
      intro t ht
      obtain ⟨l, hl⟩ := runBars_trades_append fit dates prices p k prices.length hk
      exact hns t (by rw [hl]; exact List.mem_append_left _ ht)
    rcases (runBars_good fit dates prices p hpos k hk hnsk).1 with ⟨h0, _, _⟩ | ⟨_, _, hsz, _⟩
    · exact absurd h0 hopen
    · exact hsz

/-- C7 witness: the six-bar rising-trough run (no shorts, positive
closes) is long after bar 6 with positive notional; conversely positive
notional implies the open position. -/
theorem C7_witness :
    (∀ q ∈ prices9, 0 < q) ∧
    (∀ t ∈ (runBars olsFit dates9 prices9 comboB prices9.length).ps.trades,
      t.ttype ≠ TradeType.sell_short) ∧
    (runBars olsFit dates9 prices9 comboB 6).ps.position ≠ 0 ∧
    0 < (runBars olsFit dates9 prices9 comboB 6).ps.position_size := by
  have h1 : ∀ q ∈ prices9, 0 < q := of_decide_eq_true (by with_unfolding_all rfl)
  have h2 : ∀ t ∈ (runBars olsFit dates9 prices9 comboB prices9.length).ps.trades,
      t.ttype ≠ TradeType.sell_short := of_decide_eq_true (by with_unfolding_all rfl)
  have h4 : (runBars olsFit dates9 prices9 comboB 6).ps.position ≠ 0 :=
    of_decide_eq_true (by with_unfolding_all rfl)
  have h5 : 0 < (runBars olsFit dates9 prices9 comboB 6).ps.position_size :=
    (C7_position_notional olsFit dates9 prices9 comboB 6).2.2 h1 h2
      (of_decide_eq_true (by with_unfolding_all rfl)) h4
  exact ⟨h1, h2, (C7_position_notional olsFit dates9 prices9 comboB 6).1 h5, h5⟩

/-- C7 counterexample: in the eight-bar run the position after bar 8 is
short (-1) while the notional is negative (-50000/3), so an open
position does not imply strictly positive notional. -/
theorem C7_counterexample :
    (backtest_trendline_strategy olsFit dates8 prices8 comboB).ps.position = -1 ∧
    (backtest_trendline_strategy olsFit dates8 prices8 comboB).ps.position_size < 0 :=
  of_decide_eq_true (by with_unfolding_all rfl)

/-! ## Sweep ranking lemmas -/

lemma wgt_none_left (x : Option ℚ) : wgt none x = false := rfl

lemma wgt_some_none (a : ℚ) : wgt (some a) none = true := rfl

/-- Let-free unfolding of medianPnl. -/
lemma medianPnl_eq (trades : List Trade) :
    medianPnl trades =
      if (realizedPnls trades).isEmpty then none
      else some (pandasMedian (realizedPnls trades)) := rfl

lemma medianPnl_none_iff (trades : List Trade) :
    medianPnl trades = none ↔ realizedPnls trades = [] := by
  rw [medianPnl_eq]
  split_ifs with h <;> simp_all [List.isEmpty_iff]

/-- Let-free unfolding of the ranking step. -/
lemma rankStep_eq (fit : List (ℚ × ℚ) → ℚ × ℚ) (dates prices : List ℚ)
    (st : RankState) (c : ParamSet) :
    rankStep fit dates prices st c =
      if wgt (run_backtest_combo fit dates prices c).1 st.best_median_val then
        if wgt (some (run_backtest_combo fit dates prices c).2) st.best_equity_val then
          { best_median_val := (run_backtest_combo fit dates prices c).1,
            best_median_params := some c,
            best_equity_val := some (run_backtest_combo fit dates prices c).2,
            best_equity_params := some c }
        else
          { st with best_median_val := (run_backtest_combo fit dates prices c).1,
                    best_median_params := some c }
      else
        if wgt (some (run_backtest_combo fit dates prices c).2) st.best_equity_val then
          { st with best_equity_val := some (run_backtest_combo fit dates prices c).2,
                    best_equity_params := some c }
        else st := by
  unfold rankStep
  split_ifs <;> simp_all

/-- The ranking step leaves the median winner unchanged or sets it to
the processed combination. -/
lemma rankStep_median_params (fit : List (ℚ × ℚ) → ℚ × ℚ) (dates prices : List ℚ)
    (st : RankState) (c : ParamSet) :
    (rankStep fit dates prices st c).best_median_params = some c ∨
    (rankStep fit dates prices st c).best_median_params = st.best_median_params := by
  rw [rankStep_eq]
  split_ifs <;> simp

/-- A combination with the minus-infinity median sentinel never beats
the running best, so the median winner is unchanged. -/
lemma rankStep_median_of_none (fit : List (ℚ × ℚ) → ℚ × ℚ) (dates prices : List ℚ)
    (st : RankState) (c : ParamSet)
    (h : (run_backtest_combo fit dates prices c).1 = none) :
    (rankStep fit dates prices st c).best_median_params = st.best_median_params := by
  rw [rankStep_eq, h, wgt_none_left]
  split_ifs <;> simp_all

lemma foldl_rank_median_ne (fit : List (ℚ × ℚ) → ℚ × ℚ) (dates prices : List ℚ)
    (p : ParamSet)
    (hmed : medianPnl (backtest_trendline_strategy fit dates prices p).ps.trades = none)
    (combos : List ParamSet) :
    ∀ st : RankState, st.best_median_params ≠ some p →
      (List.foldl (rankStep fit dates prices) st combos).best_median_params ≠ some p := by
  induction combos with
  | nil => exact fun st h => h
  | cons c cs ih =>
    intro st h
    apply ih
    by_cases hc : c = p
    · subst hc
      rw [rankStep_median_of_none fit dates prices st c hmed]
      exact h
    · rcases rankStep_median_params fit dates prices st c with h2 | h2
      · rw [h2]
        exact fun hh => hc (Option.some.inj hh)
      · rw [h2]
        exact h

/-- C2 (amended): a combination whose run records zero realized trades
is assigned the minus-infinity median sentinel and never wins the
best-by-median-PnL leaderboard.  (The original claim also had it losing
the best-by-final-equity leaderboard, which fails: the sentinel plays no
role in the equity ranking, and a zero-trade run keeps its initial cash,
which can exceed the final equity of every trading run; see the
counterexample.) -/
theorem C2_zero_trades_sentinel (fit : List (ℚ × ℚ) → ℚ × ℚ) (dates prices : List ℚ)
    (combos : List ParamSet) (p : ParamSet)
    (h : realizedPnls (backtest_trendline_strategy fit dates prices p).ps.trades = []) :
    medianPnl (backtest_trendline_strategy fit dates prices p).ps.trades = none ∧
    (gridSearch fit dates prices combos).best_median_params ≠ some p := by
  have hmed : medianPnl (backtest_trendline_strategy fit dates prices p).ps.trades = none :=
    (medianPnl_none_iff _).mpr h
  exact ⟨hmed, foldl_rank_median_ne fit dates prices p hmed combos initRank (by
    intro hh
    exact Option.noConfusion hh)⟩

/-- C2 witness: the degenerate combination records zero realized trades
on the eight-bar input and does not win the median leaderboard of the
two-combination grid. -/
theorem C2_witness :
    realizedPnls (backtest_trendline_strategy olsFit dates8 prices8 comboA).ps.trades = [] ∧
    (gridSearch olsFit dates8 prices8 [comboA, comboB]).best_median_params ≠ some comboA := by
  have h : realizedPnls (backtest_trendline_strategy olsFit dates8 prices8 comboA).ps.trades = [] :=
    of_decide_eq_true (by with_unfolding_all rfl)
  exact ⟨h, (C2_zero_trades_sentinel olsFit dates8 prices8 [comboA, comboB] comboA h).2⟩

/-- C2 counterexample: on the eight-bar input the zero-trade combination
comboA wins the best-by-final-equity leaderboard of the grid containing
comboA and the trading combination comboB (whose single realized trade
loses money), so a zero-trade combination does not lose both
leaderboards. -/
theorem C2_counterexample :
    realizedPnls (backtest_trendline_strategy olsFit dates8 prices8 comboA).ps.trades = [] ∧
    comboA ≠ comboB ∧
    (gridSearch olsFit dates8 prices8 [comboA, comboB]).best_equity_params = some comboA :=
  of_decide_eq_true (by with_unfolding_all rfl)

/-- C6 (amended): a single-combination grid on a nonempty input returns
that combination as the best-by-final-equity winner, and as the
best-by-median-PnL winner exactly when its run records at least one
realized trade.  (The original claim fails when the single run records
zero trades: the minus-infinity sentinel never beats the minus-infinity
initial best, so the median winner stays None; see the
counterexample.) -/
theorem C6_single_combo (fit : List (ℚ × ℚ) → ℚ × ℚ) (dates prices : List ℚ)
    (p : ParamSet) (_hne : prices ≠ []) :
    (gridSearch fit dates prices [p]).best_equity_params = some p ∧
    ((gridSearch fit dates prices [p]).best_median_params = some p ↔
      realizedPnls (backtest_trendline_strategy fit dates prices p).ps.trades ≠ []) := by
  have hgrid : gridSearch fit dates prices [p] = rankStep fit dates prices initRank p := rfl
  rw [hgrid, rankStep_eq]
  have hbm : (run_backtest_combo fit dates prices p).1 =
      medianPnl (backtest_trendline_strategy fit dates prices p).ps.trades := rfl
  rcases hm : (run_backtest_combo fit dates prices p).1 with _ | v
  · have hr : realizedPnls (backtest_trendline_strategy fit dates prices p).ps.trades = [] :=
      (medianPnl_none_iff _).mp (hbm.symm.trans hm)
    simp [initRank, wgt_none_left, wgt_some_none, hr]
  · have hr : realizedPnls (backtest_trendline_strategy fit dates prices p).ps.trades ≠ [] := by
      intro hh
      rw [hbm, (medianPnl_none_iff _).mpr hh] at hm
      exact Option.noConfusion hm
    simp [initRank, wgt_some_none, hr]

/-- C6 witness: the single-combination grid over the eight-bar input
with the trading combination comboB (one realized trade) wins both
leaderboards. -/
theorem C6_witness :
    prices8 ≠ [] ∧
    (gridSearch olsFit dates8 prices8 [comboB]).best_equity_params = some comboB ∧
    (gridSearch olsFit dates8 prices8 [comboB]).best_median_params = some comboB := by
  have h : prices8 ≠ [] := of_decide_eq_true (by with_unfolding_all rfl)
  have hr : realizedPnls (backtest_trendline_strategy olsFit dates8 prices8 comboB).ps.trades ≠ [] :=
    of_decide_eq_true (by with_unfolding_all rfl)
  have hc := C6_single_combo olsFit dates8 prices8 comboB h
  exact ⟨h, hc.1, hc.2.mpr hr⟩

/-- C6 counterexample: the single-combination grid with the zero-trade
combination comboA on the flat input returns None, not comboA, as the
median-leaderboard winner. -/
theorem C6_counterexample :
    pricesFlat ≠ [] ∧
    (gridSearch olsFit datesFlat pricesFlat [comboA]).best_median_params = none :=
  of_decide_eq_true (by with_unfolding_all rfl)

/-! ## Causality: outputs through bar i depend only on bars 0..i -/

lemma plateauEnd_le (x : List ℚ) (v : ℚ) (iMax : ℕ) :
    ∀ (fuel i : ℕ), i ≤ iMax → plateauEnd x v iMax i fuel ≤ iMax
  | 0, i, h => h
  | fuel + 1, i, h => by
    rw [plateauEnd]
    split_ifs with hc
    · exact plateauEnd_le x v iMax fuel (i + 1) hc.1
    · exact h

/-- Let-free unfolding of one scan step of localMaximaAux. -/
lemma localMaximaAux_succ (x : List ℚ) (iMax i fuel : ℕ) :
    localMaximaAux x iMax i (fuel + 1) =
      if i < iMax then
        if pget x (i - 1) < pget x i then
          if pget x (plateauEnd x (pget x i) iMax (i + 1) iMax) < pget x i then
            (i + (plateauEnd x (pget x i) iMax (i + 1) iMax - 1)) / 2 ::
              localMaximaAux x iMax (plateauEnd x (pget x i) iMax (i + 1) iMax + 1) fuel
          else localMaximaAux x iMax (i + 1) fuel
        else localMaximaAux x iMax (i + 1) fuel
      else [] := rfl

lemma mem_localMaximaAux_lt (x : List ℚ) (iMax : ℕ) :
    ∀ (fuel i q : ℕ), q ∈ localMaximaAux x iMax i fuel → q < iMax
  | 0, i, q, h => by simp [localMaximaAux] at h
  | fuel + 1, i, q, h => by
    rw [localMaximaAux_succ] at h
    split_ifs at h with h1 h2 h3
    · rcases List.mem_cons.mp h with rfl | h4
      · have hp : plateauEnd x (pget x i) iMax (i + 1) iMax ≤ iMax := by
          rcases le_or_lt (i + 1) iMax with hle | hlt
          · exact plateauEnd_le x (pget x i) iMax iMax (i + 1) hle
          · omega
        omega
      · exact mem_localMaximaAux_lt x iMax fuel _ q h4
    · exact mem_localMaximaAux_lt x iMax fuel _ q h
    · exact mem_localMaximaAux_lt x iMax fuel _ q h
    · simp at h

lemma mem_localMaxima_lt (x : List ℚ) (q : ℕ) (h : q ∈ localMaxima x) :
    q < x.length - 1 :=
  mem_localMaximaAux_lt x (x.length - 1) x.length 1 q h

lemma mem_filterKeep {α : Type} (l : List α) (keep : List Bool) (a : α)
    (h : a ∈ filterKeep l keep) : a ∈ l := by
  unfold filterKeep at h
  obtain ⟨q, hq, hqa⟩ := List.mem_filterMap.mp h
  have : q.1 = a := by
    by_cases hb : q.2 = true <;> simp [hb] at hqa
    exact hqa
  exact this ▸ (List.of_mem_zip hq).1

lemma mem_find_peaks (x : List ℚ) (d : ℕ) (prom : ℚ) (q : ℕ)
    (h : q ∈ find_peaks x d prom) : q ∈ localMaxima x :=
  mem_filterKeep _ _ _ (mem_filterKeep _ _ _ h)

lemma detect_local_extrema_fst (s : List ℚ) (o : ℕ) (pr : ℚ) :
    (detect_local_extrema s o pr).1 = find_peaks (s.map fun q => -q) o pr := rfl

lemma detect_local_extrema_snd (s : List ℚ) (o : ℕ) (pr : ℚ) :
    (detect_local_extrema s o pr).2 = find_peaks s o pr := rfl

lemma subPrices_length (prices : List ℚ) (p : ParamSet) (i : ℕ) :
    (subPrices prices p i).length = i + 1 - windowStart p i := by
  simp [subPrices]

/-- Every full-series trough index found at bar i lies strictly before
bar i. -/
lemma mem_troughsFull_lt (prices : List ℚ) (p : ParamSet) (i q : ℕ)
    (h : q ∈ troughsFull prices p i) : q < i := by
  obtain ⟨q0, hq0, rfl⟩ := List.mem_map.mp h
  rw [detect_local_extrema_fst] at hq0
  have hb := mem_localMaxima_lt _ _ (mem_find_peaks _ _ _ _ hq0)
  rw [List.length_map, subPrices_length] at hb
  have hws : windowStart p i ≤ i := Nat.sub_le _ _
  omega

/-- Every full-series peak index found at bar i lies strictly before
bar i. -/
lemma mem_peaksFull_lt (prices : List ℚ) (p : ParamSet) (i q : ℕ)
    (h : q ∈ peaksFull prices p i) : q < i := by
  obtain ⟨q0, hq0, rfl⟩ := List.mem_map.mp h
  rw [detect_local_extrema_snd] at hq0
  have hb := mem_localMaxima_lt _ _ (mem_find_peaks _ _ _ _ hq0)
  rw [subPrices_length] at hb
  have hws : windowStart p i ≤ i := Nat.sub_le _ _
  omega

lemma pget_eq_of_take_eq {l1 l2 : List ℚ} {m j : ℕ} (h : l1.take m = l2.take m)
    (hj : j < m) : pget l1 j = pget l2 j := by
  unfold pget
  rw [List.getD_eq_getElem?_getD, List.getD_eq_getElem?_getD]
  have e1 : (l1.take m)[j]? = l1[j]? := by rw [List.getElem?_take, if_pos hj]
  have e2 : (l2.take m)[j]? = l2[j]? := by rw [List.getElem?_take, if_pos hj]
  rw [← e1, ← e2, h]

/-- Let-free unfolding of trendline_from_extrema. -/
lemma trendline_from_extrema_eq (fit : List (ℚ × ℚ) → ℚ × ℚ)
    (dates prices : List ℚ) (idx : List ℕ) :
    trendline_from_extrema fit dates prices idx =
      if idx.length < 2 then
        { model := none, slope := 0,
          intercept := if idx.length ≠ 0 then some (pget prices (idx.getD 0 0)) else none,
          used_points := idx }
      else
        { model := some (fit (idx.map fun i => (pget dates i, pget prices i))),
          slope := (fit (idx.map fun i => (pget dates i, pget prices i))).1,
          intercept := some (fit (idx.map fun i => (pget dates i, pget prices i))).2,
          used_points := idx } := rfl

/-- The fitted info only reads dates and prices at the extrema indices. -/
lemma trendline_congr (fit : List (ℚ × ℚ) → ℚ × ℚ) (d1 p1 d2 p2 : List ℚ)
    (idx : List ℕ) (h : ∀ q ∈ idx, pget d1 q = pget d2 q ∧ pget p1 q = pget p2 q) :
    trendline_from_extrema fit d1 p1 idx = trendline_from_extrema fit d2 p2 idx := by
  rw [trendline_from_extrema_eq, trendline_from_extrema_eq]
  have hmap : (idx.map fun i => (pget d1 i, pget p1 i)) =
      idx.map fun i => (pget d2 i, pget p2 i) :=
    List.map_congr_left fun q hq => by rw [(h q hq).1, (h q hq).2]
  split_ifs with h1 h2
  · rcases idx with _ | ⟨q0, rest⟩
    · exact absurd h2 (by simp)
    · have hq0 := (h q0 (List.mem_cons_self q0 rest)).2
      simp [hq0]
  · rfl
  · rw [hmap]

lemma candidateInfo_congr (fit : List (ℚ × ℚ) → ℚ × ℚ) (d1 p1 d2 p2 : List ℚ)
    (p : ParamSet) (idxs : List ℕ)
    (h : ∀ q ∈ idxs, pget d1 q = pget d2 q ∧ pget p1 q = pget p2 q) :
    candidateInfo fit d1 p1 p idxs = candidateInfo fit d2 p2 p idxs := by
  unfold candidateInfo
  split_ifs with h1
  · exact trendline_congr fit d1 p1 d2 p2 idxs h
  · rfl

lemma subPrices_congr (p1 p2 : List ℚ) (p : ParamSet) (i : ℕ)
    (hp : ∀ j, j ≤ i → pget p1 j = pget p2 j) :
    subPrices p1 p i = subPrices p2 p i := by
  unfold subPrices
  refine List.map_congr_left fun j hj => hp _ ?_
  have h1 : j < i + 1 - windowStart p i := List.mem_range.mp hj
  have h2 : windowStart p i ≤ i := Nat.sub_le _ _
  omega

/-- The candidates at bar i only read dates and prices at indices up to
i: the detection window ends at bar i and all extrema indices fall
inside it. -/
lemma trendCandidates_congr (fit : List (ℚ × ℚ) → ℚ × ℚ) (d1 p1 d2 p2 : List ℚ)
    (p : ParamSet) (i : ℕ)
    (hd : ∀ j, j ≤ i → pget d1 j = pget d2 j) (hp : ∀ j, j ≤ i → pget p1 j = pget p2 j) :
    trendCandidates fit d1 p1 p i = trendCandidates fit d2 p2 p i := by
  unfold trendCandidates
  have hsub : subPrices p1 p i = subPrices p2 p i := subPrices_congr p1 p2 p i hp
  have htr : troughsFull p1 p i = troughsFull p2 p i := by unfold troughsFull; rw [hsub]
  have hpk : peaksFull p1 p i = peaksFull p2 p i := by unfold peaksFull; rw [hsub]
  rw [htr, hpk]
  refine Prod.ext ?_ ?_
  · exact candidateInfo_congr fit d1 p1 d2 p2 p _ fun q hq =>
      ⟨hd q (le_of_lt (mem_troughsFull_lt p2 p i q hq)),
       hp q (le_of_lt (mem_troughsFull_lt p2 p i q hq))⟩
  · exact candidateInfo_congr fit d1 p1 d2 p2 p _ fun q hq =>
      ⟨hd q (le_of_lt (mem_peaksFull_lt p2 p i q hq)),
       hp q (le_of_lt (mem_peaksFull_lt p2 p i q hq))⟩

lemma simStep_congr (fit : List (ℚ × ℚ) → ℚ × ℚ) (d1 p1 d2 p2 : List ℚ)
    (p : ParamSet) (i : ℕ) (s : SimState)
    (hd : ∀ j, j ≤ i → pget d1 j = pget d2 j) (hp : ∀ j, j ≤ i → pget p1 j = pget p2 j) :
    simStep fit d1 p1 p i s = simStep fit d2 p2 p i s := by
  unfold simStep
  rw [trendCandidates_congr fit d1 p1 d2 p2 p i hd hp, hd i le_rfl, hp i le_rfl]

lemma runBars_congr (fit : List (ℚ × ℚ) → ℚ × ℚ) (d1 p1 d2 p2 : List ℚ)
    (p : ParamSet) (i : ℕ)
    (hd : ∀ j, j ≤ i → pget d1 j = pget d2 j) (hp : ∀ j, j ≤ i → pget p1 j = pget p2 j) :
    ∀ k, k ≤ i + 1 → runBars fit d1 p1 p k = runBars fit d2 p2 p k
  | 0, _ => rfl
  | k + 1, hk => by
    rw [runBars_succ, runBars_succ,
      runBars_congr fit d1 p1 d2 p2 p i hd hp k (by omega),
      simStep_congr fit d1 p1 d2 p2 p k _ (fun j hj => hd j (by omega))
        (fun j hj => hp j (by omega))]

/-- C9: the simulator is strictly causal.  If two inputs agree on bars
0..i (identical dates and closes up to and including bar i) then the
entire simulator state after bar i is identical: position, entry price,
cash, notional, active trend and model, and both ledgers including all
equity values for bars 0..i.  Changing bars after i changes nothing at
or before bar i. -/
theorem C9_causality (fit : List (ℚ × ℚ) → ℚ × ℚ) (d1 p1 d2 p2 : List ℚ)
    (p : ParamSet) (i : ℕ)
    (hd : d1.take (i + 1) = d2.take (i + 1)) (hp : p1.take (i + 1) = p2.take (i + 1)) :
    runBars fit d1 p1 p (i + 1) = runBars fit d2 p2 p (i + 1) :=
  runBars_congr fit d1 p1 d2 p2 p i
    (fun j hj => pget_eq_of_take_eq hd (by omega))
    (fun j hj => pget_eq_of_take_eq hp (by omega))
    (i + 1) le_rfl

/-- C9 witness: two eight-bar inputs that differ only in the final bar
produce identical simulator states after bar 6. -/
theorem C9_witness :
    dates8.take 7 = dates8.take 7 ∧ prices8.take 7 = prices8b.take 7 ∧
    runBars olsFit dates8 prices8 comboB 7 = runBars olsFit dates8 prices8b comboB 7 := by
  have hp : prices8.take 7 = prices8b.take 7 := of_decide_eq_true (by with_unfolding_all rfl)
  exact ⟨rfl, hp, C9_causality olsFit dates8 prices8 dates8 prices8b comboB 6 rfl hp⟩

end SwingTrade
